import Mathlib

/-!
Verification of the errstklint analyzer (repository tomoemon/go-errstk,
file errstklint/analyzer.go) against its natural-language specification.

The Go code is shallowly embedded: strings are modelled as List Char
(the analyzer only ever inspects ASCII path and comment text, where Go
byte indexing and character indexing agree), the go/ast fragments the
analyzer reads are modelled as inductive types carrying exactly the
attributes the analyzer consumes, and the standard-library helpers the
analyzer calls (path/filepath.Match, filepath.Base, strings.Split,
strings.Trim, the two compiled regular expressions) are ported
faithfully from their sources.  The modelled platform is the non-Windows
one: the path separator is the forward slash, filepath.ToSlash is the
identity and the backslash escape of filepath.Match is active.
-/

namespace Errstklint

/-! ## Basic string primitives (ports of the strings package helpers) -/

/-- Port of strings.HasPrefix on character lists. -/
def goStartsWith : List Char → List Char → Bool
  | _, [] => true
  | [], _ :: _ => false
  | c :: s, d :: t => c = d && goStartsWith s t

/-- Port of strings.HasSuffix on character lists. -/
def goEndsWith (s suffixChars : List Char) : Bool :=
  goStartsWith s.reverse suffixChars.reverse

/-- The remainder of hay after the first (leftmost) occurrence of needle,
or none when needle does not occur.  This packages the
strings.Index call together with the cursor advance
currentPos += idx + len(part) that always follows it in the analyzer:
some r means strings.Index hay needle = i with r = hay dropped past
the occurrence, none means strings.Index returned -1. -/
def afterFirst (hay needle : List Char) : Option (List Char) :=
  if goStartsWith hay needle then some (hay.drop needle.length)
  else
    match hay with
    | [] => none
    | _ :: t => afterFirst t needle

/-- Port of strings.Contains s sub. -/
def goContains (s sub : List Char) : Bool :=
  (afterFirst s sub).isSome

/-- Port of strings.Trim part "/": removes leading and trailing slashes. -/
def trimSlash (l : List Char) : List Char :=
  ((l.dropWhile (· = '/')).reverse.dropWhile (· = '/')).reverse

/-- Port of strings.Split pattern "**" (Go strings.Split with the fixed
two-character separator used by matchDoubleStarPattern): leftmost,
non-overlapping splitting, keeping empty fragments. -/
def splitSS : List Char → List (List Char)
  | [] => [[]]
  | '*' :: '*' :: rest => [] :: splitSS rest
  | c :: rest =>
    match splitSS rest with
    | [] => [[c]]
    | h :: t => (c :: h) :: t

/-- Port of strings.Split on the comma, as used by shouldIgnoreLinter. -/
def splitComma : List Char → List (List Char)
  | [] => [[]]
  | ',' :: rest => [] :: splitComma rest
  | c :: rest =>
    match splitComma rest with
    | [] => [[c]]
    | h :: t => (c :: h) :: t

/-- The white-space test of strings.TrimSpace / unicode.IsSpace,
restricted to the Latin-1 range (comment text is source text). -/
def isGoSpace (c : Char) : Bool :=
  c = ' ' || c = '\t' || c = '\n' || c = '\x0b' || c = '\x0c' || c = '\r'
    || c = '\x85' || c = '\xa0'

/-- Port of strings.TrimSpace. -/
def goTrimSpace (l : List Char) : List Char :=
  ((l.dropWhile isGoSpace).reverse.dropWhile isGoSpace).reverse

/-- Port of strings.TrimPrefix text "//" (used on raw comment text). -/
def trimSlashes (text : List Char) : List Char :=
  if goStartsWith text ['/', '/'] then text.drop 2 else text

/-- Port of path/filepath.ToSlash.  On the modelled (non-Windows)
platform the separator already is the slash, so ToSlash returns the
path unchanged. -/
def goToSlash (path : List Char) : List Char := path

/-- Port of path/filepath.Base (non-Windows: no volume names):
empty path gives ".", otherwise trailing slashes are stripped, the
part after the last remaining slash is taken, and an all-slash path
gives "/". -/
def goBase (path : List Char) : List Char :=
  if path = [] then ['.']
  else
    let p1 := (path.reverse.dropWhile (· = '/')).reverse
    let p2 := (p1.reverse.takeWhile (· ≠ '/')).reverse
    if p2 = [] then ['/'] else p2

/-! ## Port of path/filepath.Match

Faithful port of the Go standard library matcher that the analyzer
calls (non-Windows build: the backslash escapes the next character).
Errors (ErrBadPattern) are modelled as Except.error ().  The loops of
the original are written with a fuel argument; the fuel passed by the
wrappers always suffices because every iteration of the original
consumes at least one character of the quantity the fuel is derived
from, so the zero-fuel branches are unreachable. -/

/-- Port of getEsc: one possibly-escaped character of a character
class.  Errors on an empty class element, a leading dash or closing
bracket, a trailing backslash, and when nothing follows the element. -/
def getEsc : List Char → Except Unit (Char × List Char)
  | [] => .error ()
  | c :: rest =>
    if c = '-' ∨ c = ']' then .error ()
    else if c = '\\' then
      match rest with
      | [] => .error ()
      | d :: rest2 => if rest2 = [] then .error () else .ok (d, rest2)
    else if rest = [] then .error () else .ok (c, rest)

/-- Port of the character-class range loop inside matchChunk: parses
lo-hi ranges until an unescaped closing bracket (which must close a
non-empty class), accumulating whether r fell in some range.
Returns the accumulated result and the chunk after the bracket. -/
def classRanges (r : Char) : Nat → List Char → Nat → Bool → Except Unit (Bool × List Char)
  | 0, _, _, _ => .error ()
  | fuel + 1, chunk, nrange, m =>
    match chunk, nrange with
    | ']' :: rest, _ + 1 => .ok (m, rest)
    | _, _ =>
      match getEsc chunk with
      | .error e => .error e
      | .ok (lo, ch1) =>
        match
          (match ch1 with
           | '-' :: ch1t => getEsc ch1t
           | _ => .ok (lo, ch1)) with
        | .error e => .error e
        | .ok (hi, ch2) =>
          classRanges r fuel ch2 (nrange + 1) (m || (lo ≤ r && r ≤ hi))

/-- Port of matchChunk: matches a star-free chunk against the front of
s.  Result .ok (some t) is Go (t, true, nil), .ok none is
("", false, nil) and .error () is ErrBadPattern.  As in the original,
after the match has failed the chunk is still parsed to completion so
that a malformed pattern is reported even on mismatch. -/
def matchChunkAux : Nat → List Char → List Char → Bool → Except Unit (Option (List Char))
  | 0, _, _, _ => .error ()
  | _ + 1, [], s, failed => if failed then .ok none else .ok (some s)
  | fuel + 1, c :: ch, s0, failed0 =>
    let failed := failed0 || s0.isEmpty
    if c = '[' then
      -- character class; on the failed path Go leaves r as the zero rune
      let r := if failed then Char.ofNat 0 else s0.headD (Char.ofNat 0)
      let s1 := if failed then s0 else s0.tail
      let negated := goStartsWith ch ['^']
      let ch1 := if negated then ch.tail else ch
      match classRanges r (ch1.length + 1) ch1 0 false with
      | .error e => .error e
      | .ok (m, ch2) => matchChunkAux fuel ch2 s1 (failed || (m = negated))
    else if c = '?' then
      if failed then matchChunkAux fuel ch s0 failed
      else matchChunkAux fuel ch s0.tail (s0.headD ' ' = '/')
    else if c = '\\' then
      match ch with
      | [] => .error ()
      | d :: ch2 =>
        -- fallthrough to the literal case with the escaped character
        if failed then matchChunkAux fuel ch2 s0 failed
        else matchChunkAux fuel ch2 s0.tail (d ≠ s0.headD d)
    else
      if failed then matchChunkAux fuel ch s0 failed
      else matchChunkAux fuel ch s0.tail (c ≠ s0.headD c)

/-- matchChunk with the fuel its loop needs. -/
def matchChunk (chunk s : List Char) : Except Unit (Option (List Char)) :=
  matchChunkAux (chunk.length + 1) chunk s false

/-- The leading-star loop of scanChunk: strips the stars, recording
whether there was at least one. -/
def stripStars : List Char → Bool × List Char
  | [] => (false, [])
  | c :: rest => if c = '*' then (true, (stripStars rest).2) else (false, c :: rest)

/-- The scan loop of scanChunk: collects the chunk up to the next
unbracketed star, skipping over the character after a backslash and
tracking the in-class flag. -/
def chunkScan : Bool → List Char → List Char × List Char
  | _, [] => ([], [])
  | inrange, c :: rest =>
    if c = '\\' then
      match rest with
      | [] => (['\\'], [])
      | d :: rest2 =>
        let p := chunkScan inrange rest2
        ('\\' :: d :: p.1, p.2)
    else if c = '[' then
      let p := chunkScan true rest
      (c :: p.1, p.2)
    else if c = ']' then
      let p := chunkScan false rest
      (c :: p.1, p.2)
    else if c = '*' then
      if inrange then
        let p := chunkScan inrange rest
        (c :: p.1, p.2)
      else ([], c :: rest)
    else
      let p := chunkScan inrange rest
      (c :: p.1, p.2)

/-- Port of scanChunk: the next segment of the pattern, a star-free
chunk possibly preceded by stars. -/
def scanChunk (pattern : List Char) : Bool × List Char × List Char :=
  let sp := stripStars pattern
  let cr := chunkScan false sp.2
  (sp.1, cr.1, cr.2)

/-- The inner star loop of Match: tries the chunk at every later
position of the name without crossing a separator.  .ok (some t) means
the outer loop continues with the name t, .ok none means the loop ran
out and Match returns false. -/
def starLoop (chunk rest : List Char) : List Char → Except Unit (Option (List Char))
  | [] => .ok none
  | c :: s2 =>
    if c = '/' then .ok none
    else
      match matchChunk chunk s2 with
      | .error e => .error e
      | .ok (some t) =>
        if rest = [] && t ≠ [] then starLoop chunk rest s2 else .ok (some t)
      | .ok none => starLoop chunk rest s2

/-- The trailing validation loop of Match: before returning false
with no error, the remainder of the pattern is checked to be
syntactically valid by matching each of its chunks against the empty
name (which can only fail, but still reports ErrBadPattern on a
malformed chunk). -/
def chunksValid : Nat → List Char → Except Unit Bool
  | 0, _ => .error ()
  | fuel + 1, pattern =>
    if pattern = [] then .ok false
    else
      match scanChunk pattern with
      | (_, chunk, rest) =>
        match matchChunk chunk [] with
        | .error e => .error e
        | .ok _ => chunksValid fuel rest

/-- The Pattern loop of Match.  Every return of false-with-no-error
inside the loop first runs the trailing validation of the remaining
pattern, as Go does since 1.16. -/
def goMatchAux : Nat → List Char → List Char → Except Unit Bool
  | 0, _, _ => .error ()
  | fuel + 1, pattern, name =>
    if pattern = [] then .ok (name = [])
    else
      match scanChunk pattern with
      | (star, chunk, rest) =>
        if star && chunk = [] then
          -- a trailing star matches the rest of the name unless it has a separator
          .ok (!name.contains '/')
        else
          match matchChunk chunk name with
          | .error e => .error e
          | .ok (some t) =>
            if t = [] ∨ rest ≠ [] then goMatchAux fuel rest t
            else if star then
              match starLoop chunk rest name with
              | .error e => .error e
              | .ok (some t2) => goMatchAux fuel rest t2
              | .ok none => chunksValid (rest.length + 1) rest
            else chunksValid (rest.length + 1) rest
          | .ok none =>
            if star then
              match starLoop chunk rest name with
              | .error e => .error e
              | .ok (some t2) => goMatchAux fuel rest t2
              | .ok none => chunksValid (rest.length + 1) rest
            else chunksValid (rest.length + 1) rest

/-- Port of path/filepath.Match. -/
def goMatch (pattern name : List Char) : Except Unit Bool :=
  goMatchAux (pattern.length + 1) pattern name

/-- The way the analyzer consumes a Match result everywhere:
matched, err := filepath.Match(...) used as err == nil && matched. -/
def goMatchBool (pattern name : List Char) : Bool :=
  match goMatch pattern name with
  | .ok b => b
  | .error _ => false

/-! ## The double-star matcher and the exclusion engine
(errstklint/analyzer.go, matchDoubleStarPattern and shouldExclude) -/

/-- The fragment walk of matchDoubleStarPattern.  The Go loop indexes
the fragments (i) against the fragment count (n) and keeps an integer
cursor into the filename; here the cursor is represented by rem, the
suffix of the filename after the already matched fragments, which is
the filename itself while i = 0.  Empty (slash-trimmed) fragments are
skipped.  The first fragment must be a prefix of the filename or is
located by a substring search; middle fragments are located by a
substring search after the cursor; the last fragment must glob-match
the base name of the full filename or be a literal suffix of it. -/
def dspWalk (filename : List Char) : Nat → Nat → List (List Char) → List Char → Bool
  | _, _, [], _ => false
  | i, n, p :: ps, rem =>
    let part := trimSlash p
    if part = [] then dspWalk filename (i + 1) n ps rem
    else if i = 0 then
      if goStartsWith filename part then
        dspWalk filename (i + 1) n ps (filename.drop part.length)
      else
        match afterFirst rem part with
        | none => false
        | some rem2 => dspWalk filename (i + 1) n ps rem2
    else if i = n - 1 then
      goMatchBool part (goBase filename) || goEndsWith filename part
    else
      match afterFirst rem part with
      | none => false
      | some rem2 => dspWalk filename (i + 1) n ps rem2

/-- Port of matchDoubleStarPattern: splits the pattern on the
double-star token and walks the fragments over the filename. -/
def matchDoubleStarPattern (filename pattern : List Char) : Bool :=
  let parts := splitSS pattern
  if parts = [] then false
  else dspWalk filename 0 parts.length parts filename

/-- One iteration of the pattern loop of shouldExclude: the three
tiers tried for a single pattern, in source order (exact glob match,
glob match of the base name, then the double-star walk when the
pattern contains the double-star token). -/
def patternMatches (filename pattern : List Char) : Bool :=
  let pattern := goToSlash pattern
  goMatchBool pattern filename
    || goMatchBool pattern (goBase filename)
    || (goContains pattern ['*', '*'] && matchDoubleStarPattern filename pattern)

/-- Port of shouldExclude: an empty pattern list excludes nothing,
otherwise the normalized filename is tried against every pattern and
the first success wins. -/
def shouldExclude (filename : List Char) (patterns : List (List Char)) : Bool :=
  if patterns = [] then false
  else
    let filename := goToSlash filename
    patterns.any (fun pattern => patternMatches filename pattern)

/-! ## The go/ast fragment the rule engine reads

Only the shapes the analyzer inspects are distinguished; every other
expression or statement form is collapsed into an other constructor,
which the analyzer treats uniformly (its type assertions fail on it). -/

/-- Expressions, as far as isDeferErrStkWrap distinguishes them:
identifiers, selector expressions and unary expressions (the operator
kept as its token text, as compared by unary.Op.String()). -/
inductive GoExpr where
  | ident (name : String)
  | selector (x : GoExpr) (sel : String)
  | unary (op : String) (x : GoExpr)
  | otherExpr
deriving DecidableEq

/-- A call expression: its function expression and its arguments. -/
structure CallExpr where
  fn : GoExpr
  args : List GoExpr
deriving DecidableEq

/-- Statements of a function body: a defer statement carrying its call,
a nested block carrying its own statement list (standing for any inner
block: the analyzer never looks inside), or any other statement. -/
inductive GoStmt where
  | deferS (call : CallExpr)
  | block (stmts : List GoStmt)
  | otherStmt

/-- A resolved type as far as isErrorType distinguishes it: a named
type with the nil-ness of its defining package and its name, or any
other type. -/
inductive GoType where
  | named (pkgIsNil : Bool) (name : String)
  | otherType
deriving DecidableEq

/-- One field of a result list: its declared names (empty for an
unnamed result) and its resolved type (none when the type information
resolves to nil). -/
structure GoField where
  names : List String
  typ : Option GoType
deriving DecidableEq

/-- A source position as the rule engine consumes it: the file name
and the line. -/
structure Position where
  filename : List Char
  line : Nat
deriving DecidableEq

/-- A function declaration: name, position, result list (none when the
declaration has no result list) and body (none for bodyless
declarations such as external functions). -/
structure GoFuncDecl where
  name : String
  pos : Position
  results : Option (List GoField)
  body : Option (List GoStmt)

/-- A reported diagnostic: the position it is reported at and the two
names interpolated into the message
"function %s returns error but missing defer errstk.Wrap(&%s)". -/
structure Diagnostic where
  pos : Position
  funcName : String
  errVar : String
deriving DecidableEq

/-- Port of isErrorType: true exactly for a named type whose object
has no package and is named error (the predeclared error interface). -/
def isErrorType : GoType → Bool
  | .named pkgIsNil n => pkgIsNil && n = "error"
  | .otherType => false

/-- The field loop of getErrorReturnName. -/
def errNameOfFields : List GoField → String
  | [] => ""
  | f :: fs =>
    match f.typ with
    | none => errNameOfFields fs
    | some t =>
      if isErrorType t then
        match f.names with
        | [] => "err"
        | n :: _ => n
      else errNameOfFields fs

/-- Port of getErrorReturnName: the declared name of the first
error-typed result, the conventional name err for an unnamed one, and
the empty string when the function does not return error. -/
def getErrorReturnName (d : GoFuncDecl) : String :=
  match d.results with
  | none => ""
  | some fields => errNameOfFields fields

/-- Port of isDeferErrStkWrap: the deferred call must be a selector
call with member name Wrap whose qualifier is a plain identifier (the
identifier name itself is deliberately unrestricted, tolerating import
aliases), and its first argument must be the address-of the error
variable. -/
def isDeferErrStkWrap (call : CallExpr) (errorVar : String) : Bool :=
  match call.fn with
  | .selector x sel =>
    if sel ≠ "Wrap" then false
    else
      match x with
      | .ident _ =>
        match call.args with
        | [] => false
        | a :: _ =>
          match a with
          | .unary op y =>
            if op ≠ "&" then false
            else
              match y with
              | .ident n => n = errorVar
              | _ => false
          | _ => false
      | _ => false
  | _ => false

/-- Port of hasDeferErrStkWrap: scans only the direct top-level
statement list of the body for a satisfying defer statement. -/
def hasDeferErrStkWrap (d : GoFuncDecl) (errorVar : String) : Bool :=
  match d.body with
  | none => false
  | some stmts =>
    stmts.any fun s =>
      match s with
      | .deferS call => isDeferErrStkWrap call errorVar
      | _ => false

/-- A line range suppressed by a nolint directive (the source struct
ignoredRange; its second field is named end in Go, a reserved word
here). -/
structure IgnoredRange where
  start : Nat
  stop : Nat
deriving DecidableEq

/-- Port of isPositionIgnored: interval membership of the line. -/
def isPositionIgnored (pos : Position) (ranges : List IgnoredRange) : Bool :=
  ranges.any fun r => decide (r.start ≤ pos.line ∧ pos.line ≤ r.stop)

/-- The per-declaration body of the inspect callback in run: skip
bodyless declarations, excluded files, suppressed positions and
declarations without an error return; otherwise report exactly one
diagnostic when the defer is missing. -/
def checkFuncDecl (d : GoFuncDecl) (excludePatterns : List (List Char))
    (ranges : List IgnoredRange) : List Diagnostic :=
  match d.body with
  | none => []
  | some _ =>
    if shouldExclude d.pos.filename excludePatterns then []
    else if isPositionIgnored d.pos ranges then []
    else
      let errorReturnName := getErrorReturnName d
      if errorReturnName = "" then []
      else if hasDeferErrStkWrap d errorReturnName then []
      else [⟨d.pos, d.name, errorReturnName⟩]

/-- The traversal of run: declarations are visited in order, each
contributing its diagnostics, with the suppressed ranges looked up per
file. -/
def runPass (decls : List GoFuncDecl) (excludePatterns : List (List Char))
    (rangesOf : List Char → List IgnoredRange) : List Diagnostic :=
  decls.flatMap fun d => checkFuncDecl d excludePatterns (rangesOf d.pos.filename)

/-! ## The suppression parser
(errstklint/analyzer.go, nolintPattern, lintIgnorePattern,
parseNolintDirectives, shouldIgnoreLinter, createIgnoredRange)

The two package-level regular expressions are compiled once in the
source; here each is ported as a recognizer returning its capture
groups.  The ports implement the exact RE2 semantics of the two
anchored expressions, including the character classes \w (ASCII word
characters), \s (space, tab, newline, form feed, carriage return),
\S (its complement) and the dot (any character except newline). -/

/-- RE2 \w: ASCII letters, digits and the underscore. -/
def isWordChar (c : Char) : Bool := c.isAlpha || c.isDigit || c = '_'

/-- The class [\w,] of nolintPattern. -/
def isWordComma (c : Char) : Bool := isWordChar c || c = ','

/-- RE2 \s. -/
def isRegexSpace (c : Char) : Bool :=
  c = ' ' || c = '\t' || c = '\n' || c = '\x0c' || c = '\r'

/-- The recognizer of nolintPattern, the anchored expression
nolint(:([word-or-comma]+))?(space-or-end) applied by FindStringSubmatch:
some group1 on a match (the captured linter list, empty when the colon
group is absent), none otherwise.  A colon must be followed by a
non-empty run of word characters or commas, and the run must be
followed by a space or the end of the text; backtracking to a shorter
run can never succeed because a shorter run ends at a word character. -/
def nolintMatch (text : List Char) : Option (List Char) :=
  if goStartsWith text "nolint".data then
    match text.drop 6 with
    | [] => some []
    | c :: rest =>
      if isRegexSpace c then some []
      else if c = ':' then
        let run := rest.takeWhile isWordComma
        if run = [] then none
        else
          match rest.drop run.length with
          | [] => some run
          | d :: _ => if isRegexSpace d then some run else none
      else none
  else none

/-- The optional reason tail ((?:\s+(.+))?$) of lintIgnorePattern, on
the text remaining after the checker name: the end of the text, or at
least one space character followed by a non-empty dot-matchable rest.
Greedily taking k leading space characters and backtracking, a match
exists iff the rest after the full space run is non-empty and free of
newlines, or the text is all spaces, at least two of them, not ending
in a newline. -/
def lintIgnoreTailOk (r : List Char) : Bool :=
  if r = [] then true
  else
    let k := (r.takeWhile isRegexSpace).length
    if k = 0 then false
    else if k < r.length then (r.drop k).all (· ≠ '\n')
    else decide (2 ≤ k) && r.getLastD ' ' ≠ '\n'

/-- The part of lintIgnorePattern after the directive keyword:
\s+(\S+)(?:\s+(.+))?$, returning the directive type together with the
captured checker name. -/
def lintIgnoreAfterType (dtype rest2 : List Char) : Option (List Char × List Char) :=
  let ws := rest2.takeWhile isRegexSpace
  if ws = [] then none
  else
    let rest3 := rest2.drop ws.length
    let token := rest3.takeWhile fun c => !isRegexSpace c
    if token = [] then none
    else if lintIgnoreTailOk (rest3.drop token.length) then some (dtype, token)
    else none

/-- The recognizer of lintIgnorePattern, the anchored expression
lint:(ignore|file-ignore)\s+(\S+)(?:\s+(.+))?$: some (group1, group2)
on a match.  The two alternatives are tried in order; they can never
both apply at the same position. -/
def lintIgnoreMatch (text : List Char) : Option (List Char × List Char) :=
  if goStartsWith text "lint:".data then
    let rest := text.drop 5
    if goStartsWith rest "ignore".data then
      lintIgnoreAfterType "ignore".data (rest.drop 6)
    else if goStartsWith rest "file-ignore".data then
      lintIgnoreAfterType "file-ignore".data (rest.drop 11)
    else none
  else none

/-- Port of shouldIgnoreLinter: an absent or empty list and the
literal all apply to every checker; otherwise some comma-separated
entry must equal errstklint after trimming. -/
def shouldIgnoreLinter (linters : List Char) : Bool :=
  if linters = [] ∨ linters = "all".data then true
  else (splitComma linters).any fun l => goTrimSpace l = "errstklint".data

/-- One comment of a comment group: the line of its position and its
raw text (including the leading slashes of a line comment). -/
structure GoComment where
  line : Nat
  text : List Char
deriving DecidableEq

/-- A comment group: the position of its start (used for the
next-declaration search) and its comments. -/
structure GoCommentGroup where
  pos : Nat
  list : List GoComment
deriving DecidableEq

/-- One candidate node of the next-declaration search: a function or
general declaration with its position and its start and end lines.
The declaration nodes of a file are listed in the preorder in which
ast.Inspect visits them. -/
structure GoFileNode where
  pos : Nat
  startLine : Nat
  endLine : Nat
deriving DecidableEq

/-- The abstract-syntax-tree view of one file, carrying exactly what
parseNolintDirectives reads: the line of the package keyword
(file.Package), the lines of file.Pos() and file.End() computed once
as fileStart and fileEnd (the first and last line of the file in the
view of the abstract syntax tree), the candidate declaration nodes in
visit order, and the comment groups. -/
structure GoFile where
  packageLine : Nat
  fileStart : Nat
  fileEnd : Nat
  declNodes : List GoFileNode
  comments : List GoCommentGroup
deriving DecidableEq

/-- Port of createIgnoredRange: a comment on a line before the package
keyword suppresses the whole file; otherwise the range covers the
first declaration node found after the comment group position, and
degenerates to the comment line when there is none. -/
def createIgnoredRange (commentLine : Nat) (cg : GoCommentGroup) (f : GoFile)
    (fileStart fileEnd : Nat) : IgnoredRange :=
  if commentLine < f.packageLine then ⟨fileStart, fileEnd⟩
  else
    match f.declNodes.find? (fun d => decide (cg.pos < d.pos)) with
    | some d => ⟨d.startLine, d.endLine⟩
    | none => ⟨commentLine, commentLine⟩

/-- The body of the comment loop of parseNolintDirectives: the ranges
one comment contributes.  A nolint match is handled first (and ends
the handling of this comment, matching the continue in the source); a
lint directive must name this checker exactly, file-ignore always
producing the whole-file range and ignore a declaration-scoped one. -/
def rangesForComment (f : GoFile) (cg : GoCommentGroup) (c : GoComment) :
    List IgnoredRange :=
  let text := goTrimSpace (trimSlashes c.text)
  match nolintMatch text with
  | some linters =>
    if shouldIgnoreLinter linters then
      [createIgnoredRange c.line cg f f.fileStart f.fileEnd]
    else []
  | none =>
    match lintIgnoreMatch text with
    | some (dtype, checkName) =>
      if checkName = "errstklint".data then
        if dtype = "file-ignore".data then [⟨f.fileStart, f.fileEnd⟩]
        else [createIgnoredRange c.line cg f f.fileStart f.fileEnd]
      else []
    | none => []

/-- The inner comment loop of parseNolintDirectives. -/
def parseGroup (f : GoFile) (cg : GoCommentGroup) : List GoComment → List IgnoredRange
  | [] => []
  | c :: cs => rangesForComment f cg c ++ parseGroup f cg cs

/-- The outer comment-group loop of parseNolintDirectives. -/
def parseGroups (f : GoFile) : List GoCommentGroup → List IgnoredRange
  | [] => []
  | cg :: cgs => parseGroup f cg cg.list ++ parseGroups f cgs

/-- Port of parseNolintDirectives: all ranges contributed by all
comments of the file, in comment order. -/
def parseNolintDirectives (f : GoFile) : List IgnoredRange :=
  parseGroups f f.comments

/-! ## Helper lemmas about the defer check -/

/-- Shape characterization of isDeferErrStkWrap: it accepts exactly a
selector call with an identifier qualifier, member name Wrap, and an
address-of-the-error-variable first argument. -/
lemma isDeferErrStkWrap_iff (call : CallExpr) (v : String) :
    isDeferErrStkWrap call v = true ↔
      ∃ q rest, call.fn = GoExpr.selector (GoExpr.ident q) "Wrap" ∧
        call.args = GoExpr.unary "&" (GoExpr.ident v) :: rest := by
  obtain ⟨fn, args⟩ := call
  cases fn with
  | ident n => simp [isDeferErrStkWrap]
  | otherExpr => simp [isDeferErrStkWrap]
  | unary o x => simp [isDeferErrStkWrap]
  | selector x sel =>
    cases x with
    | selector a b => simp [isDeferErrStkWrap]
    | unary a b => simp [isDeferErrStkWrap]
    | otherExpr => simp [isDeferErrStkWrap]
    | ident q =>
      by_cases hsel : sel = "Wrap"
      · subst hsel
        cases args with
        | nil => simp [isDeferErrStkWrap]
        | cons a rest =>
          cases a with
          | ident m => simp [isDeferErrStkWrap]
          | selector m b => simp [isDeferErrStkWrap]
          | otherExpr => simp [isDeferErrStkWrap]
          | unary op y =>
            by_cases hop : op = "&"
            · subst hop
              cases y with
              | ident m => simp [isDeferErrStkWrap]
              | selector m b => simp [isDeferErrStkWrap]
              | unary m b => simp [isDeferErrStkWrap]
              | otherExpr => simp [isDeferErrStkWrap]
            · simp [isDeferErrStkWrap, hop]
      · simp [isDeferErrStkWrap, hsel]

/-- Shape characterization of hasDeferErrStkWrap over the direct
top-level statement list. -/
lemma hasDeferErrStkWrap_iff (d : GoFuncDecl) (stmts : List GoStmt) (v : String)
    (hb : d.body = some stmts) :
    hasDeferErrStkWrap d v = true ↔
      ∃ s ∈ stmts, ∃ q rest,
        s = GoStmt.deferS ⟨GoExpr.selector (GoExpr.ident q) "Wrap",
          GoExpr.unary "&" (GoExpr.ident v) :: rest⟩ := by
  simp only [hasDeferErrStkWrap, hb]
  rw [List.any_eq_true]
  constructor
  · rintro ⟨s, hs, hm⟩
    cases s with
    | deferS call =>
      have hc : isDeferErrStkWrap call v = true := hm
      rw [isDeferErrStkWrap_iff] at hc
      obtain ⟨q, rest, h1, h2⟩ := hc
      refine ⟨_, hs, q, rest, ?_⟩
      obtain ⟨fn, args⟩ := call
      simp only at h1 h2
      rw [h1, h2]
    | block b => simp at hm
    | otherStmt => simp at hm
  · rintro ⟨s, hs, q, rest, rfl⟩
    refine ⟨_, hs, ?_⟩
    simp [isDeferErrStkWrap]

/-! ## Claim C1 -/

/-- Claim-side predicate, following the words of claim C1: the
statement is a defer of a selector call whose member name is Wrap and
whose first argument is the address-of the subject variable (no
constraint on the qualifier of the selector). -/
def claimWrapDefer (subject : String) : GoStmt → Bool
  | .deferS call =>
    (match call.fn with
     | .selector _ sel => sel = "Wrap"
     | _ => false)
    && (match call.args with
        | .unary "&" (.ident n) :: _ => n = subject
        | _ => false)
  | _ => false

/-- A function body whose only statement defers a.b.Wrap(&err): a
selector call with member Wrap and first argument &err, but with a
qualifier that is itself a selector rather than a plain identifier. -/
def c1Body : List GoStmt :=
  [GoStmt.deferS ⟨GoExpr.selector (GoExpr.selector (GoExpr.ident "a") "b") "Wrap",
    [GoExpr.unary "&" (GoExpr.ident "err")]⟩]

/-- A function f with a named error return err and the body above. -/
def c1Decl : GoFuncDecl :=
  { name := "f", pos := ⟨"x.go".data, 10⟩,
    results := some [{ names := ["err"], typ := some (GoType.named true "error") }],
    body := some c1Body }

/-- Counterexample to claim C1 as stated: the body of f contains a
defer of a selector call with member name Wrap whose first argument is
the address-of the subject variable err, yet the rule engine still
emits one diagnostic for f, because the code additionally requires the
selector qualifier to be a plain identifier and a.b is not one. -/
theorem c1_defer_rule_counterexample :
    c1Body.any (claimWrapDefer "err") = true ∧
    checkFuncDecl c1Decl [] [] = [⟨⟨"x.go".data, 10⟩, "f", "err"⟩] :=
  ⟨rfl, rfl⟩

/-- Claim C1 (amended): for every function declaration with a non-nil
body, neither excluded nor suppressed, with an error-typed return slot
giving subject variable name, the rule engine emits exactly one
diagnostic at the position of the declaration if and only if no
statement of the direct top-level statement list is a defer of a
selector call whose member name is Wrap, whose qualifier is a plain
identifier, and whose first argument is the address-of the subject
variable; defers nested inside inner blocks are not inspected and do
not satisfy the rule. -/
theorem c1_defer_rule (d : GoFuncDecl) (stmts : List GoStmt) (name : String)
    (pats : List (List Char)) (ranges : List IgnoredRange)
    (hb : d.body = some stmts)
    (hex : shouldExclude d.pos.filename pats = false)
    (hig : isPositionIgnored d.pos ranges = false)
    (hname : getErrorReturnName d = name) (hne : name ≠ "") :
    (checkFuncDecl d pats ranges = [⟨d.pos, d.name, name⟩] ↔
      ¬ ∃ s ∈ stmts, ∃ q rest,
        s = GoStmt.deferS ⟨GoExpr.selector (GoExpr.ident q) "Wrap",
          GoExpr.unary "&" (GoExpr.ident name) :: rest⟩) ∧
    (checkFuncDecl d pats ranges = [] ↔
      ∃ s ∈ stmts, ∃ q rest,
        s = GoStmt.deferS ⟨GoExpr.selector (GoExpr.ident q) "Wrap",
          GoExpr.unary "&" (GoExpr.ident name) :: rest⟩) := by
  have hiff := hasDeferErrStkWrap_iff d stmts name hb
  simp only [checkFuncDecl, hb, hex, hig, hname, Bool.false_eq_true,
    if_false, if_neg hne]
  by_cases hd : hasDeferErrStkWrap d name = true
  · rw [hiff] at hd
    simp only [if_pos (hiff.mpr hd)]
    constructor
    · simp [hd]
    · simp [hd]
  · have hdm := hd
    rw [hiff] at hdm
    rw [if_neg hd]
    constructor
    · simp [hdm]
    · simp [hdm]

/-- A body whose only satisfying defer sits inside a nested block. -/
def c1wBody : List GoStmt :=
  [GoStmt.block
      [GoStmt.deferS ⟨GoExpr.selector (GoExpr.ident "errstk") "Wrap",
        [GoExpr.unary "&" (GoExpr.ident "err")]⟩],
    GoStmt.otherStmt]

/-- A function g with an unnamed error return (subject err) and the
nested-defer body above. -/
def c1wDecl : GoFuncDecl :=
  { name := "g", pos := ⟨"y.go".data, 3⟩,
    results := some [{ names := [], typ := some (GoType.named true "error") }],
    body := some c1wBody }

/-- Witness for claim C1: at the concrete declaration g the engine
reports a diagnostic, so by the amended theorem no top-level statement
of its body is a satisfying defer, although a nested block holds one. -/
theorem c1_defer_rule_witness :
    ¬ ∃ s ∈ c1wBody, ∃ q rest,
      s = GoStmt.deferS ⟨GoExpr.selector (GoExpr.ident q) "Wrap",
        GoExpr.unary "&" (GoExpr.ident "err") :: rest⟩ :=
  (c1_defer_rule c1wDecl c1wBody "err" [] [] rfl rfl rfl rfl
    (by decide)).1.mp rfl

/-! ## Claim C10 -/

/-- Claim C10: the cleanup-call check inspects only the first
argument: a deferred call q.Wrap(&subject, extras...) satisfies the
rule whatever the extra arguments are, and no diagnostic is emitted
for the function. -/
theorem c10_first_argument_only (d : GoFuncDecl) (stmts : List GoStmt) (q : String)
    (extras : List GoExpr) (pats : List (List Char)) (ranges : List IgnoredRange)
    (hb : d.body = some stmts)
    (hmem : GoStmt.deferS ⟨GoExpr.selector (GoExpr.ident q) "Wrap",
      GoExpr.unary "&" (GoExpr.ident (getErrorReturnName d)) :: extras⟩ ∈ stmts) :
    hasDeferErrStkWrap d (getErrorReturnName d) = true ∧
    checkFuncDecl d pats ranges = [] := by
  have hdef : hasDeferErrStkWrap d (getErrorReturnName d) = true := by
    rw [hasDeferErrStkWrap_iff d stmts _ hb]
    exact ⟨_, hmem, q, extras, rfl⟩
  refine ⟨hdef, ?_⟩
  simp only [checkFuncDecl, hb, hdef]
  split_ifs <;> rfl

/-- A function h deferring errstk.Wrap(&err, otherExpr): two
arguments, the first one being the address-of err. -/
def c10Decl : GoFuncDecl :=
  { name := "h", pos := ⟨"z.go".data, 20⟩,
    results := some [{ names := ["err"], typ := some (GoType.named true "error") }],
    body := some [GoStmt.deferS ⟨GoExpr.selector (GoExpr.ident "errstk") "Wrap",
      [GoExpr.unary "&" (GoExpr.ident "err"), GoExpr.otherExpr]⟩] }

/-- Witness for claim C10 at the concrete declaration h. -/
theorem c10_first_argument_only_witness :
    hasDeferErrStkWrap c10Decl "err" = true ∧ checkFuncDecl c10Decl [] [] = [] :=
  c10_first_argument_only c10Decl _ "errstk" [GoExpr.otherExpr] [] [] rfl
    (List.mem_singleton.mpr rfl)

/-! ## Helper lemma about the double-star walk -/

/-- Whenever the fragment walk succeeds, it does so in the last-index
branch: the last fragment of the split trims non-empty and either
glob-matches the base name of the full filename or is a literal suffix
of it.  The invariant i + ps.length = n states that the remaining
fragments ps sit at indices i .. n-1 of the original split. -/
lemma dspWalk_true (filename : List Char) (n : Nat) :
    ∀ (ps : List (List Char)) (i : Nat) (rem : List Char),
      i + ps.length = n → dspWalk filename i n ps rem = true →
      ∃ p, ps.getLast? = some p ∧ trimSlash p ≠ [] ∧
        (goMatchBool (trimSlash p) (goBase filename) = true ∨
         goEndsWith filename (trimSlash p) = true) := by
  intro ps
  induction ps with
  | nil => intro i rem hlen hw; simp [dspWalk] at hw
  | cons p ps ih =>
    intro i rem hlen hw
    simp only [dspWalk] at hw
    have hlen2 : (i + 1) + ps.length = n := by
      simp only [List.length_cons] at hlen; omega
    by_cases h1 : trimSlash p = []
    · rw [if_pos h1] at hw
      obtain ⟨p2, hl, hne, hend⟩ := ih (i + 1) rem hlen2 hw
      refine ⟨p2, ?_, hne, hend⟩
      cases ps with
      | nil => simp at hl
      | cons b l => rw [List.getLast?_cons_cons]; exact hl
    · rw [if_neg h1] at hw
      by_cases h2 : i = 0
      · rw [if_pos h2] at hw
        by_cases h3 : goStartsWith filename (trimSlash p) = true
        · rw [if_pos h3] at hw
          obtain ⟨p2, hl, hne, hend⟩ := ih (i + 1) _ hlen2 hw
          refine ⟨p2, ?_, hne, hend⟩
          cases ps with
          | nil => simp at hl
          | cons b l => rw [List.getLast?_cons_cons]; exact hl
        · rw [if_neg h3] at hw
          cases haf : afterFirst rem (trimSlash p) with
          | none => rw [haf] at hw; exact absurd hw (by simp)
          | some rem2 =>
            rw [haf] at hw
            obtain ⟨p2, hl, hne, hend⟩ := ih (i + 1) rem2 hlen2 hw
            refine ⟨p2, ?_, hne, hend⟩
            cases ps with
            | nil => simp at hl
            | cons b l => rw [List.getLast?_cons_cons]; exact hl
      · rw [if_neg h2] at hw
        by_cases h3 : i = n - 1
        · rw [if_pos h3] at hw
          have hps : ps = [] := by
            cases ps with
            | nil => rfl
            | cons b l =>
              exfalso
              simp only [List.length_cons] at hlen
              omega
          subst hps
          exact ⟨p, by simp, h1, by rwa [Bool.or_eq_true] at hw⟩
        · rw [if_neg h3] at hw
          cases haf : afterFirst rem (trimSlash p) with
          | none => rw [haf] at hw; exact absurd hw (by simp)
          | some rem2 =>
            rw [haf] at hw
            obtain ⟨p2, hl, hne, hend⟩ := ih (i + 1) rem2 hlen2 hw
            refine ⟨p2, ?_, hne, hend⟩
            cases ps with
            | nil => simp at hl
            | cons b l => rw [List.getLast?_cons_cons]; exact hl

/-! ## Claim C2 -/

/-- Claim C2: the pattern matcher decides the four pinned boundary
examples exactly as the specification states them: the
usernotification.go path does not match the *.yo.go double-star
pattern, the model.yo.go path does, the service/api path matches the
anchored directory pattern and the infra/persistence path does not. -/
theorem c2_pinned_boundary_examples :
    patternMatches "./infra/persistence/spanner_dao/usernotification.go".data
        "**/*.yo.go".data = false ∧
    patternMatches "./infra/persistence/model.yo.go".data "**/*.yo.go".data = true ∧
    patternMatches "project/service/api/handler/user.go".data
        "**/service/api/**/*.go".data = true ∧
    patternMatches "project/infra/persistence/user.go".data
        "**/service/api/**/*.go".data = false :=
  ⟨rfl, rfl, rfl, rfl⟩

/-! ## Claim C3 -/

/-- Counterexample to claim C3 as stated: the double-star matcher
accepts the path project/microservice/api/handler/user.go against the
pattern with middle fragment service/api, although that fragment
occurs in the path only inside the longer directory name
microservice (the path has no slash-anchored occurrence /service/api
at all): middle fragments are plain substring searches and may match
mid-token. -/
theorem c3_boundary_counterexample :
    matchDoubleStarPattern "project/microservice/api/handler/user.go".data
        "**/service/api/**/*.go".data = true ∧
    goContains "project/microservice/api/handler/user.go".data
        "/service/api".data = false :=
  ⟨rfl, rfl⟩

/-- Claim C3 (amended): only the final fragment of a double-star
pattern is anchored: whenever the matcher returns true, the last
fragment of the split trims non-empty and matched at a boundary,
either as a glob over the final path segment or as a literal suffix of
the whole path.  First and middle fragments are located by plain
substring searches and may land mid-token. -/
theorem c3_tail_anchoring (filename pattern p : List Char)
    (hlast : (splitSS pattern).getLast? = some p)
    (hm : matchDoubleStarPattern filename pattern = true) :
    trimSlash p ≠ [] ∧
      (goMatchBool (trimSlash p) (goBase filename) = true ∨
       goEndsWith filename (trimSlash p) = true) := by
  simp only [matchDoubleStarPattern] at hm
  by_cases hsp : splitSS pattern = []
  · rw [if_pos hsp] at hm; exact absurd hm (by simp)
  · rw [if_neg hsp] at hm
    obtain ⟨p2, hl2, hne, hend⟩ :=
      dspWalk_true filename (splitSS pattern).length (splitSS pattern) 0 filename
        (by omega) hm
    rw [hlast] at hl2
    obtain rfl : p = p2 := by injection hl2
    exact ⟨hne, hend⟩

/-- Witness for claim C3 at the pinned positive example: the
*.yo.go fragment anchored at the base name of model.yo.go. -/
theorem c3_tail_anchoring_witness :
    trimSlash "/*.yo.go".data ≠ [] ∧
      (goMatchBool (trimSlash "/*.yo.go".data)
          (goBase "./infra/persistence/model.yo.go".data) = true ∨
       goEndsWith "./infra/persistence/model.yo.go".data
          (trimSlash "/*.yo.go".data) = true) :=
  c3_tail_anchoring "./infra/persistence/model.yo.go".data "**/*.yo.go".data
    "/*.yo.go".data rfl rfl

/-! ## Claim C7 -/

/-- Claim C7: exclusion is monotone in the pattern list: appending an
extra pattern preserves every exclusion. -/
theorem c7_exclusion_monotone (path : List Char) (ps : List (List Char))
    (extra : List Char) (h : shouldExclude path ps = true) :
    shouldExclude path (ps ++ [extra]) = true := by
  simp only [shouldExclude] at h ⊢
  by_cases hps : ps = []
  · subst hps; simp at h
  · rw [if_neg hps] at h
    rw [if_neg (by simp : ¬ ps ++ [extra] = [])]
    rw [List.any_append, h, Bool.true_or]

/-- Witness for claim C7: the pattern *.go excludes a.go, and still
does after a second pattern is appended. -/
theorem c7_exclusion_monotone_witness :
    shouldExclude "a.go".data (["*.go".data] ++ ["zz".data]) = true :=
  c7_exclusion_monotone "a.go".data ["*.go".data] "zz".data rfl

/-! ## Claim C8 -/

/-- Counterexample to claim C8 as stated: the malformed pattern with
an unterminated character class (Match reports ErrBadPattern on it)
still excludes the path foo[ — the double-star tier falls back to a
literal suffix comparison that ignores glob validity. -/
theorem c8_malformed_counterexample :
    shouldExclude "foo[".data ["**/[".data] = true ∧
    goMatch "**/[".data "foo[".data = .error () :=
  ⟨rfl, rfl⟩

/-- Claim C8 (amended): a pattern the glob syntax cannot compile is
treated as a non-match by both single-level glob tiers, and the run is
never aborted (the exclusion engine is a total function and ignores
the error); when such a pattern does not contain the double-star
token, its presence in the pattern list changes nothing.  A malformed
pattern containing the double-star token, however, may still exclude a
path through the literal substring and suffix comparisons of the
recursive tier. -/
theorem c8_malformed_no_effect (path pattern : List Char) (ps : List (List Char))
    (h1 : goMatch (goToSlash pattern) (goToSlash path) = .error ())
    (h2 : goMatch (goToSlash pattern) (goBase (goToSlash path)) = .error ())
    (h3 : goContains (goToSlash pattern) ['*', '*'] = false) :
    shouldExclude path (pattern :: ps) = shouldExclude path ps := by
  have hpm : patternMatches (goToSlash path) pattern = false := by
    simp only [patternMatches, goMatchBool, h1, h2, h3]
    simp
  simp only [shouldExclude]
  rw [if_neg (by simp : ¬ pattern :: ps = [])]
  simp only [List.any_cons, hpm, Bool.false_or]
  cases hps : ps with
  | nil => simp
  | cons b l => rw [if_neg (by simp)]

/-- Witness for claim C8: the malformed double-star-free pattern a[
leaves the empty pattern list ineffective on the path b. -/
theorem c8_malformed_no_effect_witness :
    shouldExclude "b".data ["a[".data] = shouldExclude "b".data [] :=
  c8_malformed_no_effect "b".data "a[".data [] rfl rfl rfl

/-! ## Claim C9 -/

/-- Claim C9: a pattern whose final double-star fragment is empty
(the pattern ends in the double-star token, such as generated/**)
never matches in the recursive-wildcard tier, for every filename; such
a pattern can exclude a file only through the two single-level glob
tiers. -/
theorem c9_trailing_double_star (filename pattern : List Char)
    (hlast : (splitSS pattern).getLast? = some []) :
    matchDoubleStarPattern filename pattern = false ∧
    shouldExclude filename [pattern] =
      (goMatchBool (goToSlash pattern) (goToSlash filename) ||
       goMatchBool (goToSlash pattern) (goBase (goToSlash filename))) := by
  have hfalse : matchDoubleStarPattern filename pattern = false := by
    cases hm : matchDoubleStarPattern filename pattern with
    | false => rfl
    | true =>
      exfalso
      simp only [matchDoubleStarPattern] at hm
      by_cases hsp : splitSS pattern = []
      · rw [if_pos hsp] at hm; exact absurd hm (by simp)
      · rw [if_neg hsp] at hm
        obtain ⟨p2, hl2, hne, _⟩ :=
          dspWalk_true filename (splitSS pattern).length (splitSS pattern) 0 filename
            (by omega) hm
        rw [hlast] at hl2
        obtain rfl : ([] : List Char) = p2 := by injection hl2
        exact hne rfl
  refine ⟨hfalse, ?_⟩
  simp only [shouldExclude]
  rw [if_neg (by simp : ¬ [pattern] = [])]
  simp [patternMatches, goToSlash, hfalse]

/-- Witness for claim C9 at the pattern generated/** and the filename
generated/x/y.go. -/
theorem c9_trailing_double_star_witness :
    matchDoubleStarPattern "generated/x/y.go".data "generated/**".data = false ∧
    shouldExclude "generated/x/y.go".data ["generated/**".data] =
      (goMatchBool (goToSlash "generated/**".data)
          (goToSlash "generated/x/y.go".data) ||
       goMatchBool (goToSlash "generated/**".data)
          (goBase (goToSlash "generated/x/y.go".data))) :=
  c9_trailing_double_star "generated/x/y.go".data "generated/**".data rfl

/-! ## Helper lemmas about the suppression parser -/

/-- A prefix pins the first character of the text. -/
lemma goStartsWith_head (a : Char) (t text : List Char)
    (h : goStartsWith text (a :: t) = true) : ∃ r, text = a :: r := by
  cases text with
  | nil => simp [goStartsWith] at h
  | cons c r =>
    simp only [goStartsWith, Bool.and_eq_true, decide_eq_true_eq] at h
    exact ⟨r, by rw [h.1]⟩

/-- A successful nolint recognition pins the nolint prefix. -/
lemma nolintMatch_starts (text l : List Char) (h : nolintMatch text = some l) :
    goStartsWith text "nolint".data = true := by
  by_cases hg : goStartsWith text "nolint".data = true
  · exact hg
  · rw [nolintMatch, if_neg hg] at h
    cases h

/-- A successful lint-directive recognition pins the lint: prefix. -/
lemma lintIgnoreMatch_starts (text : List Char) (p : List Char × List Char)
    (h : lintIgnoreMatch text = some p) :
    goStartsWith text "lint:".data = true := by
  by_cases hg : goStartsWith text "lint:".data = true
  · exact hg
  · rw [lintIgnoreMatch, if_neg hg] at h
    cases h

/-- The two directive families are mutually exclusive on any comment
text, because their anchored keywords start with different characters;
hence the continue after a nolint match in the source loses nothing. -/
lemma nolintMatch_none_of_lintIgnore (text : List Char) (p : List Char × List Char)
    (h : lintIgnoreMatch text = some p) : nolintMatch text = none := by
  cases hn : nolintMatch text with
  | none => rfl
  | some l =>
    exfalso
    have h1 := nolintMatch_starts text l hn
    have h2 := lintIgnoreMatch_starts text p h
    have e1 : "nolint".data = 'n' :: "olint".data := rfl
    have e2 : "lint:".data = 'l' :: "int:".data := rfl
    rw [e1] at h1
    rw [e2] at h2
    obtain ⟨r1, hr1⟩ := goStartsWith_head _ _ text h1
    obtain ⟨r2, hr2⟩ := goStartsWith_head _ _ text h2
    rw [hr1] at hr2
    injection hr2 with h3
    exact absurd h3 (by decide)

/-- find? on a decomposed list whose prefix entirely fails the
predicate returns the pivot when the pivot satisfies it. -/
lemma find?_prefix_first {α : Type} (p : α → Bool) (d : α) :
    ∀ (pre post : List α), (∀ x ∈ pre, p x = false) → p d = true →
      List.find? p (pre ++ d :: post) = some d := by
  intro pre
  induction pre with
  | nil => intro post _ hd; simp [List.find?_cons_of_pos, hd]
  | cons a l ih =>
    intro post hpre hd
    have ha : ¬ p a = true := by
      rw [hpre a (by simp)]; simp
    rw [List.cons_append, List.find?_cons_of_neg _ ha]
    exact ih post (fun x hx => hpre x (by simp [hx])) hd

/-- The ranges of one comment embed into the ranges of its group. -/
lemma mem_parseGroup (f : GoFile) (cg : GoCommentGroup) :
    ∀ (cs : List GoComment) (c : GoComment), c ∈ cs →
      ∀ r ∈ rangesForComment f cg c, r ∈ parseGroup f cg cs := by
  intro cs
  induction cs with
  | nil => intro c hc; simp at hc
  | cons a l ih =>
    intro c hc r hr
    simp only [parseGroup, List.mem_append]
    rcases List.mem_cons.mp hc with rfl | hmem
    · exact Or.inl hr
    · exact Or.inr (ih c hmem r hr)

/-- The ranges of one group embed into the ranges of the file. -/
lemma mem_parseGroups (f : GoFile) :
    ∀ (cgs : List GoCommentGroup) (cg : GoCommentGroup), cg ∈ cgs →
      ∀ r ∈ parseGroup f cg cg.list, r ∈ parseGroups f cgs := by
  intro cgs
  induction cgs with
  | nil => intro cg hcg; simp at hcg
  | cons a l ih =>
    intro cg hcg r hr
    simp only [parseGroups, List.mem_append]
    rcases List.mem_cons.mp hcg with rfl | hmem
    · exact Or.inl hr
    · exact Or.inr (ih cg hmem r hr)

/-! ## Claim C4 -/

/-- Claim C4: every whole-file suppression range — produced either by
a suppressing comment on a line before the package header (of either
directive family) or by a file-ignore directive anywhere in the file —
spans from the first line of the file to its last line (the fileStart
and fileEnd lines computed from the positions of the file node). -/
theorem c4_whole_file_range (f : GoFile) (cg : GoCommentGroup) (c : GoComment)
    (hcg : cg ∈ f.comments) (hc : c ∈ cg.list)
    (htrig :
      (c.line < f.packageLine ∧
        ((∃ l, nolintMatch (goTrimSpace (trimSlashes c.text)) = some l ∧
            shouldIgnoreLinter l = true) ∨
         lintIgnoreMatch (goTrimSpace (trimSlashes c.text)) =
           some ("ignore".data, "errstklint".data))) ∨
      lintIgnoreMatch (goTrimSpace (trimSlashes c.text)) =
        some ("file-ignore".data, "errstklint".data)) :
    (⟨f.fileStart, f.fileEnd⟩ : IgnoredRange) ∈ parseNolintDirectives f := by
  have hmem : (⟨f.fileStart, f.fileEnd⟩ : IgnoredRange) ∈ rangesForComment f cg c := by
    simp only [rangesForComment]
    rcases htrig with ⟨hline, hdir⟩ | hfi
    · rcases hdir with ⟨l, hnl, hsil⟩ | hli
      · rw [hnl]
        simp only [hsil, if_true]
        rw [createIgnoredRange, if_pos hline]
        simp
      · rw [nolintMatch_none_of_lintIgnore _ _ hli, hli]
        rw [createIgnoredRange, if_pos hline]
        simp
    · rw [nolintMatch_none_of_lintIgnore _ _ hfi, hfi]
      simp
  exact mem_parseGroups f f.comments cg hcg _ (mem_parseGroup f cg cg.list c hc _ hmem)

/-- A file whose single comment is a pre-package blanket directive. -/
def c4cmt : GoComment := ⟨1, "//nolint:errstklint".data⟩

/-- The comment group of that comment. -/
def c4grp : GoCommentGroup := ⟨1, [c4cmt]⟩

/-- The file: package keyword on line 2, extent lines 2 to 9. -/
def c4File : GoFile := ⟨2, 2, 9, [], [c4grp]⟩

/-- Witness for claim C4 at the concrete file. -/
theorem c4_whole_file_range_witness :
    (⟨2, 9⟩ : IgnoredRange) ∈ parseNolintDirectives c4File :=
  c4_whole_file_range c4File c4grp c4cmt (List.mem_singleton.mpr rfl)
    (List.mem_singleton.mpr rfl)
    (Or.inl ⟨by decide, Or.inl ⟨"errstklint".data, rfl, rfl⟩⟩)

/-! ## Claim C5 -/

/-- Claim C5: a declaration-scoped directive whose comment is at or
after the package header produces the range of the first declaration
node whose position is strictly after the comment group position
(spanning that declaration from its start line to its end line), and
degenerates to the single comment line when no declaration follows. -/
theorem c5_decl_scoped_range (f : GoFile) (cg : GoCommentGroup)
    (commentLine fs fe : Nat) (hpos : f.packageLine ≤ commentLine) :
    ((∀ d ∈ f.declNodes, d.pos ≤ cg.pos) →
      createIgnoredRange commentLine cg f fs fe = ⟨commentLine, commentLine⟩) ∧
    (∀ (pre : List GoFileNode) (d : GoFileNode) (post : List GoFileNode),
      f.declNodes = pre ++ d :: post → (∀ x ∈ pre, x.pos ≤ cg.pos) →
      cg.pos < d.pos →
      createIgnoredRange commentLine cg f fs fe = ⟨d.startLine, d.endLine⟩) := by
  have hnl : ¬ commentLine < f.packageLine := Nat.not_lt.mpr hpos
  constructor
  · intro hall
    rw [createIgnoredRange, if_neg hnl]
    have hnone : f.declNodes.find? (fun d => decide (cg.pos < d.pos)) = none := by
      rw [List.find?_eq_none]
      intro x hx
      simp only [decide_eq_true_eq]
      exact Nat.not_lt.mpr (hall x hx)
    rw [hnone]
  · intro pre d post hsplit hpre hd
    rw [createIgnoredRange, if_neg hnl, hsplit]
    rw [find?_prefix_first _ d pre post
      (fun x hx => by simp [Nat.not_lt.mpr (hpre x hx)]) (by simp [hd])]

/-- A comment group at position 10 with no comments of its own needed
for the range computation. -/
def c5grp : GoCommentGroup := ⟨10, []⟩

/-- A declaration node at position 30 spanning lines 7 to 9. -/
def c5node : GoFileNode := ⟨30, 7, 9⟩

/-- A file holding that declaration. -/
def c5File : GoFile := ⟨2, 2, 9, [c5node], []⟩

/-- The same file without declarations. -/
def c5FileNoDecls : GoFile := ⟨2, 2, 9, [], []⟩

/-- Witness for claim C5: with a following declaration the range is
its line span, without one it degenerates to the comment line. -/
theorem c5_decl_scoped_range_witness :
    createIgnoredRange 5 c5grp c5File 2 9 = ⟨7, 9⟩ ∧
    createIgnoredRange 5 c5grp c5FileNoDecls 2 9 = ⟨5, 5⟩ :=
  ⟨(c5_decl_scoped_range c5File c5grp 5 2 9 (by decide)).2 [] c5node []
      rfl (by simp) (by decide),
   (c5_decl_scoped_range c5FileNoDecls c5grp 5 2 9 (by decide)).1 (by simp [c5FileNoDecls])⟩

/-! ## Claim C6 -/

/-- Whether a comment text is a blanket suppression applying to this
checker: the nolint recognition followed by the linter-list test, as
the comment loop of parseNolintDirectives combines them. -/
def blanketSuppresses (text : List Char) : Bool :=
  match nolintMatch text with
  | some linters => shouldIgnoreLinter linters
  | none => false

/-- Claim C6: a blanket suppression comment suppresses this checker
if and only if its captured linter list is absent or empty, equals the
universal wildcard all, or contains the exact, case-sensitive entry
errstklint after trimming. -/
theorem c6_blanket_applicability (text linters : List Char)
    (h : nolintMatch text = some linters) :
    blanketSuppresses text = true ↔
      (linters = [] ∨ linters = "all".data ∨
       ∃ e ∈ splitComma linters, goTrimSpace e = "errstklint".data) := by
  simp only [blanketSuppresses, h]
  rw [shouldIgnoreLinter]
  by_cases hc : linters = [] ∨ linters = "all".data
  · rw [if_pos hc]
    constructor
    · intro _
      rcases hc with h1 | h2
      · exact Or.inl h1
      · exact Or.inr (Or.inl h2)
    · intro _; rfl
  · rw [if_neg hc]
    rw [List.any_eq_true]
    constructor
    · rintro ⟨e, he, hp⟩
      exact Or.inr (Or.inr ⟨e, he, by simpa using hp⟩)
    · rintro (h1 | h2 | ⟨e, he, hp⟩)
      · exact absurd (Or.inl h1) hc
      · exact absurd (Or.inr h2) hc
      · exact ⟨e, he, by simpa using hp⟩

/-- Witness for claim C6: the list foo,errstklint contains the exact
entry, so the comment text suppresses the checker. -/
theorem c6_blanket_applicability_witness :
    blanketSuppresses "nolint:foo,errstklint".data = true :=
  (c6_blanket_applicability "nolint:foo,errstklint".data "foo,errstklint".data
      rfl).mpr
    (Or.inr (Or.inr ⟨"errstklint".data, by decide, by decide⟩))

end Errstklint







